import Mathlib

/-!
Verification of the rust-art generalized 2D Turing-machine simulator
(`src/main.rs`) against its natural-language specification.

The Rust source is shallowly embedded below.  Machine integers are
modelled as `Nat` with explicit `% 2^w` where the source's wrapping
behaviour matters (release-mode semantics: `u8`/`u32` arithmetic wraps),
and operations that panic in the source (out-of-bounds `ArrayVec`
indexing, iterator `unwrap`, `u8::from_str` failure, `ArrayVec::push`
past capacity) are modelled as `Option` returning `none`.
-/

namespace RustArt

/-- Source constant `const WIDTH: usize = 512;`. -/
def WIDTH : Nat := 512

/-- Source constant `const HEIGHT: usize = 512;`. -/
def HEIGHT : Nat := 512

/-- Source constant `const NUM_MACHINES: usize = 1;`. -/
def NUM_MACHINES : Nat := 1

/-- Source constant `const STEPS_PER_FRAME: u32 = 10;`. -/
def STEPS_PER_FRAME : Nat := 10

/-- Source constant `const STARTENERGY: u32 = 10;`. -/
def STARTENERGY : Nat := 10

/-- Source constant `const REPLICATIONCOST: u32 = 500;`. -/
def REPLICATIONCOST : Nat := 500

/-- Modulus of the `u32` type. -/
def U32 : Nat := 4294967296

/-- The source's `enum Action { Up, Down, Left, Right, Wait, Replicate }`. -/
inductive Action where
  | Up : Action
  | Down : Action
  | Left : Action
  | Right : Action
  | Wait : Action
  | Replicate : Action
deriving DecidableEq

/-- The source's `struct Transition { state: u8, symbol: u8, action: Action }`.
`u8` fields are modelled as `Nat` values (always < 256 in any machine the
source can construct). -/
structure Transition where
  state : Nat
  symbol : Nat
  action : Action
deriving DecidableEq

/-- The source's `struct TuringMachine` with its fields:
`table: ArrayVec<[Transition; 4096]>`, `num_states: u16`,
`num_symbols: u16`, `state: u8`, `energy: u32`, `xpos: usize`,
`ypos: usize`, `itr_count: u32`. -/
structure TuringMachine where
  table : List Transition
  num_states : Nat
  num_symbols : Nat
  state : Nat
  energy : Nat
  xpos : Nat
  ypos : Nat
  itr_count : Nat
deriving DecidableEq

/-- The shared grid `map: [u8; WIDTH * HEIGHT]`, addressed by
`WIDTH * ypos + xpos`; modelled as a function from flat index to cell
value. -/
def Grid : Type := Nat → Nat

/-- Point update of the grid: `map[i] = v`. -/
def writeGrid (g : Grid) (i v : Nat) : Grid :=
  fun j => if j = i then v else g j

/-- The table-lookup index of `TuringMachine::update`:
`(self.num_states as u8 * (*symbol) + self.state) as usize`.
The whole computation is performed in `u8` (release-mode wrapping
semantics), so the cast truncates `num_states` mod 256 and the
multiply-add wraps mod 256.  `sym` and `st` are `u8` values (< 256). -/
def lookupIndex (num_states sym st : Nat) : Nat :=
  ((num_states % 256) * sym + st) % 256

/-- The energy value after the two energy updates at the top of one
sub-step of `TuringMachine::update`:
`self.energy -= 1;` followed by `self.energy += (*symbol as u32) / 10;`
(both in wrapping `u32` arithmetic; the symbol is read before the write). -/
def postEnergy (m : TuringMachine) (g : Grid) : Nat :=
  ((m.energy + (U32 - 1)) % U32 + g (WIDTH * m.ypos + m.xpos) / 10) % U32

/-- The machine after the field updates of one sub-step that precede the
action `match`: `self.state = trans.state;` and `self.itr_count += 1;`
together with the energy updates (`postEnergy`). -/
def stepBase (m : TuringMachine) (g : Grid) (tr : Transition) : TuringMachine :=
  { m with
    state := tr.state
    energy := postEnergy m g
    itr_count := (m.itr_count + 1) % U32 }

/-- The positional effect of each `Action` arm of the `match` in
`TuringMachine::update` (the `Replicate` arm does not move the parent). -/
def moveOf (a : Action) (x y : Nat) : Nat × Nat :=
  match a with
  | .Left => (if WIDTH ≤ x + 1 then x + 1 - WIDTH else x + 1, y)
  | .Right => (if x = 0 then WIDTH - 1 else x - 1, y)
  | .Up => (x, if y = 0 then HEIGHT - 1 else y - 1)
  | .Down => (x, if HEIGHT ≤ y + 1 then y + 1 - HEIGHT else y + 1)
  | .Wait => (x, y)
  | .Replicate => (x, y)

/-- One iteration of the `for _ in 0..num_iters` loop body of
`TuringMachine::update`.  Returns the updated machine, the updated grid
and the list of machines spawned by this sub-step (pushed onto the
`machines` argument in the source).  `none` models the panic on an
out-of-bounds table index.

Source order: energy decrement, symbol read, energy gain, table lookup
(using the pre-write symbol and the pre-update state), state update,
symbol write at the pre-move position, `itr_count` increment, then the
action `match`. -/
def stepOnce (m : TuringMachine) (g : Grid) :
    Option (TuringMachine × Grid × List TuringMachine) :=
  match m.table.get? (lookupIndex m.num_states (g (WIDTH * m.ypos + m.xpos)) m.state) with
  | none => none
  | some tr =>
    let m1 := stepBase m g tr
    let g1 := writeGrid g (WIDTH * m.ypos + m.xpos) tr.symbol
    match tr.action with
    | .Left =>
      some ({ m1 with xpos := if WIDTH ≤ m1.xpos + 1 then m1.xpos + 1 - WIDTH else m1.xpos + 1 }, g1, [])
    | .Right =>
      some ({ m1 with xpos := if m1.xpos = 0 then WIDTH - 1 else m1.xpos - 1 }, g1, [])
    | .Up =>
      some ({ m1 with ypos := if m1.ypos = 0 then HEIGHT - 1 else m1.ypos - 1 }, g1, [])
    | .Down =>
      some ({ m1 with ypos := if HEIGHT ≤ m1.ypos + 1 then m1.ypos + 1 - HEIGHT else m1.ypos + 1 }, g1, [])
    | .Wait => some (m1, g1, [])
    | .Replicate =>
      if REPLICATIONCOST < m1.energy then
        let parent := { m1 with energy := m1.energy - REPLICATIONCOST }
        let clone := { parent with
          xpos := (parent.xpos + 1) % WIDTH
          ypos := (parent.ypos + 1) % HEIGHT
          energy := STARTENERGY }
        some (parent, g1, [clone])
      else
        some (m1, g1, [])

/-- The method `TuringMachine::update(&mut self, map, num_iters, machines)`:
`num_iters` iterations of the loop body, threading the machine, the grid
and the spawn accumulator. -/
def update : Nat → TuringMachine → Grid → List TuringMachine →
    Option (TuringMachine × Grid × List TuringMachine)
  | 0, m, g, acc => some (m, g, acc)
  | n + 1, m, g, acc =>
    match stepOnce m g with
    | none => none
    | some (m1, g1, sp) => update n m1 g1 (acc ++ sp)

/-- The per-frame loop `for machine in &mut machines { machine.update(&mut
map, STEPS_PER_FRAME, &mut newmachines); }`: each live machine is stepped
`STEPS_PER_FRAME` times in order, threading the grid and the shared
staging vector `newmachines`. -/
def runMachines : List TuringMachine → Grid → List TuringMachine →
    Option (List TuringMachine × Grid × List TuringMachine)
  | [], g, acc => some ([], g, acc)
  | m :: ms, g, acc =>
    match update STEPS_PER_FRAME m g acc with
    | none => none
    | some (m1, g1, acc1) =>
      match runMachines ms g1 acc1 with
      | none => none
      | some (ms1, g2, acc2) => some (m1 :: ms1, g2, acc2)

/-- The end-of-frame grid fade:
`for i in 0..WIDTH*HEIGHT { if map[i] > 0 { map[i] -= 1; } }`. -/
def decayGrid (g : Grid) : Grid :=
  fun i => if i < WIDTH * HEIGHT then (if 0 < g i then g i - 1 else g i) else g i

/-- The population floor:
`if machines.len() < NUM_MACHINES { for i in 0..NUM_MACHINES-machines.len()
{ machines.push(TuringMachine::new(50, 64)); } }`.
`TuringMachine::new` draws from an entropy-seeded RNG, so the fresh
machines are supplied by the oracle `fresh`. -/
def replenish (ms : List TuringMachine) (fresh : Nat → TuringMachine) : List TuringMachine :=
  if ms.length < NUM_MACHINES then
    ms ++ (List.range (NUM_MACHINES - ms.length)).map fresh
  else ms

/-- One whole simulation frame of `main`'s event loop (its simulation
part): step every live machine `STEPS_PER_FRAME` sub-steps collecting
spawns into the staging vector, merge the staging vector into the live
set, retain only machines with `energy > 0`, replenish to the population
floor, and apply the grid fade. -/
def frame (ms : List TuringMachine) (g : Grid) (fresh : Nat → TuringMachine) :
    Option (List TuringMachine × Grid) :=
  match runMachines ms g [] with
  | none => none
  | some (stepped, g1, spawned) =>
    let merged := stepped ++ spawned
    let retained := merged.filter (fun m => decide (0 < m.energy))
    some (replenish retained fresh, decayGrid g1)

/-- Stepping every machine of a snapshot independently (threading only the
grid), with each machine's spawns collected separately and concatenated in
order.  Used to state that the staging vector of `runMachines` never feeds
back into the stepping pass. -/
def stepSnapshot : List TuringMachine → Grid →
    Option (List TuringMachine × Grid × List TuringMachine)
  | [], g => some ([], g, [])
  | m :: ms, g =>
    match update STEPS_PER_FRAME m g [] with
    | none => none
    | some (m1, g1, sp) =>
      match stepSnapshot ms g1 with
      | none => none
      | some (ms1, g2, sps) => some (m1 :: ms1, g2, sp ++ sps)

/-- Models `transition_hash.split(",")`: split a character sequence on commas,
keeping empty segments (as Rust's `str::split` does). -/
def splitCommas : List Char → List (List Char)
  | [] => [[]]
  | c :: cs =>
    if c = ',' then [] :: splitCommas cs
    else
      match splitCommas cs with
      | [] => [[c]]
      | t :: ts => (c :: t) :: ts

/-- Decimal digit value of a character, `none` for non-digits. -/
def digitVal (c : Char) : Option Nat :=
  if 48 ≤ c.toNat ∧ c.toNat ≤ 57 then some (c.toNat - 48) else none

/-- Accumulate the decimal value of a digit string. -/
def parseNatAux : List Char → Nat → Option Nat
  | [], acc => some acc
  | c :: cs, acc =>
    match digitVal c with
    | some d => parseNatAux cs (acc * 10 + d)
    | none => none

/-- Models `u8::from_str`: numeric parse failing on the empty string, on
non-digit characters and on values that do not fit in a `u8` (a leading
`+`, which Rust also accepts, never occurs in the repository's inputs). -/
def parseU8 (cs : List Char) : Option Nat :=
  match cs with
  | [] => none
  | _ =>
    match parseNatAux cs 0 with
    | some n => if n ≤ 255 then some n else none
    | none => none

/-- The action decoding of `TuringMachine::from_string`:
`0 => Left, 1 => Right, 2 => Up, 3 => Down, _ => panic!`. -/
def decodeAction : Nat → Option Action
  | 0 => some Action.Left
  | 1 => some Action.Right
  | 2 => some Action.Up
  | 3 => some Action.Down
  | _ => none

/-- One `trans_table.next().unwrap()` on the lazy parsed iterator: take the
next token and parse it as `u8`; `none` models both the `unwrap` panic on
exhaustion and the `expect("not parsable")` panic inside the lazy `map`. -/
def nextU8 : List (List Char) → Option (Nat × List (List Char))
  | [] => none
  | t :: ts =>
    match parseU8 t with
    | some n => some (n, ts)
    | none => none

/-- The `for _ in 0..(num_states * num_symbols)` loop of
`TuringMachine::from_string`: consume one `(state, symbol, action_code)`
triple per table entry, in order, parsing tokens only as they are
consumed. -/
def buildTable : Nat → List (List Char) → Option (List Transition × List (List Char))
  | 0, ts => some ([], ts)
  | n + 1, ts =>
    match nextU8 ts with
    | none => none
    | some (s, ts1) =>
      match nextU8 ts1 with
      | none => none
      | some (y, ts2) =>
        match nextU8 ts2 with
        | none => none
        | some (a, ts3) =>
          match decodeAction a with
          | none => none
          | some act =>
            match buildTable n ts3 with
            | none => none
            | some (rest, ts4) => some (⟨s, y, act⟩ :: rest, ts4)

/-- The body of `TuringMachine::from_string` on the already-split token sequence: the
first two consumed values are `num_states` and `num_symbols`, then one
triple per table entry.  `ArrayVec<[Transition; 4096]>::push` panics past
capacity, so a table larger than 4096 can never be produced (modelled by
the capacity guard; the source instead panics mid-loop, which is the same
`none` at this level of abstraction). -/
def fromTokens (ts : List (List Char)) : Option TuringMachine :=
  match nextU8 ts with
  | none => none
  | some (ns, ts1) =>
    match nextU8 ts1 with
    | none => none
    | some (nsym, ts2) =>
      if ns * nsym ≤ 4096 then
        match buildTable (ns * nsym) ts2 with
        | none => none
        | some (tbl, _) =>
          some { table := tbl, num_states := ns, num_symbols := nsym,
                 state := 0, energy := STARTENERGY, xpos := 0, ypos := 0,
                 itr_count := 0 }
      else none

/-- The constructor `TuringMachine::from_string(transition_hash)`: split on commas and
decode. -/
def from_string (s : String) : Option TuringMachine :=
  fromTokens (splitCommas s.data)

/-- The all-zero initial grid `[0u8; WIDTH * HEIGHT]`. -/
def zeroGrid : Grid := fun _ => 0

/-- A grid with symbol 6 in every cell (concrete test input). -/
def gridSix : Grid := fun _ => 6

/-- A 256-entry table of identical `Wait` transitions writing symbol 0. -/
def tableWait : List Transition := List.replicate 256 ⟨0, 0, Action.Wait⟩

/-- Concrete machine over `tableWait` with start energy 10, at the origin. -/
def machineWait : TuringMachine :=
  { table := tableWait, num_states := 1, num_symbols := 2, state := 0,
    energy := 10, xpos := 0, ypos := 0, itr_count := 0 }

/-- Variant of `machineWait` with its energy already at 0. -/
def machineZero : TuringMachine := { machineWait with energy := 0 }

/-- Machine whose every transition is `Replicate`, with energy 1000. -/
def machineRep : TuringMachine :=
  { machineWait with table := List.replicate 256 ⟨0, 0, Action.Replicate⟩, energy := 1000 }

/-- Variant of `machineRep` with energy 600 (just above the replication threshold). -/
def machineRep600 : TuringMachine := { machineRep with energy := 600 }

/-- Machine whose every transition moves `Right`, at x = 0, y = 5. -/
def machineRight : TuringMachine :=
  { machineWait with table := List.replicate 256 ⟨0, 0, Action.Right⟩, energy := 50, ypos := 5 }

/-- Machine whose every transition is (state 3, symbol 7, `Down`), at (2, 3). -/
def machineDown : TuringMachine :=
  { machineWait with table := List.replicate 256 ⟨3, 7, Action.Down⟩, energy := 50, xpos := 2, ypos := 3 }

/-- The 50-state 64-symbol configuration that `main` constructs
(`TuringMachine::new(50, 64)`), with a concrete 3200-entry table whose
entry 44 differs from entry 300. -/
def machine50x64 : TuringMachine :=
  { table := (List.replicate 3200 (⟨1, 0, Action.Wait⟩ : Transition)).set 44 ⟨7, 0, Action.Wait⟩,
    num_states := 50, num_symbols := 64, state := 0, energy := 1000,
    xpos := 0, ypos := 0, itr_count := 0 }

/-- The spec's §8 scenario encoding, verbatim. -/
def scenarioEncoding : String := "3,4,2,2,3,2,4,0,0,1,0,2,1,2,1,1,0,1,2,3,2,3,0,2,1,0,2"

/-- An encoding whose consumed 8-value prefix is well formed but whose
ninth value (character position 16 of the string) is non-numeric. -/
def junkEncoding : String := "1,2,0,1,0,0,1,1,x"

lemma stepOnce_lookup_some (m : TuringMachine) (g : Grid) (tr : Transition)
    (h : m.table.get? (lookupIndex m.num_states (g (WIDTH * m.ypos + m.xpos)) m.state) = some tr) :
    stepOnce m g =
      (let m1 := stepBase m g tr
       let g1 := writeGrid g (WIDTH * m.ypos + m.xpos) tr.symbol
       match tr.action with
       | .Left =>
         some ({ m1 with xpos := if WIDTH ≤ m1.xpos + 1 then m1.xpos + 1 - WIDTH else m1.xpos + 1 }, g1, [])
       | .Right =>
         some ({ m1 with xpos := if m1.xpos = 0 then WIDTH - 1 else m1.xpos - 1 }, g1, [])
       | .Up =>
         some ({ m1 with ypos := if m1.ypos = 0 then HEIGHT - 1 else m1.ypos - 1 }, g1, [])
       | .Down =>
         some ({ m1 with ypos := if HEIGHT ≤ m1.ypos + 1 then m1.ypos + 1 - HEIGHT else m1.ypos + 1 }, g1, [])
       | .Wait => some (m1, g1, [])
       | .Replicate =>
         if REPLICATIONCOST < m1.energy then
           some ({ m1 with energy := m1.energy - REPLICATIONCOST }, g1,
             [{ m1 with
                 energy := STARTENERGY
                 xpos := (m1.xpos + 1) % WIDTH
                 ypos := (m1.ypos + 1) % HEIGHT }])
         else some (m1, g1, [])) := by
  unfold stepOnce
  rw [h]


lemma lookupIndex_lt (num_states sym st : Nat) : lookupIndex num_states sym st < 256 := by
  unfold lookupIndex
  exact Nat.mod_lt _ (by norm_num)

lemma postEnergy_of_small (m : TuringMachine) (g : Grid)
    (hs : g (WIDTH * m.ypos + m.xpos) < 10)
    (h1 : 1 ≤ m.energy) (h2 : m.energy ≤ REPLICATIONCOST) :
    postEnergy m g = m.energy - 1 := by
  unfold postEnergy
  rw [Nat.div_eq_of_lt hs]
  simp only [U32, REPLICATIONCOST] at *
  omega

lemma stepOnce_gain_free (m : TuringMachine) (g : Grid)
    (htab : ∀ tr ∈ m.table, tr.symbol < 10)
    (hg : ∀ i, g i < 10)
    (hlen : 256 ≤ m.table.length)
    (h1 : 1 ≤ m.energy) (h2 : m.energy ≤ REPLICATIONCOST) :
    ∃ m1 g1, stepOnce m g = some (m1, g1, []) ∧
      m1.energy = m.energy - 1 ∧
      m1.itr_count = (m.itr_count + 1) % U32 ∧
      m1.table = m.table ∧
      (∀ i, g1 i < 10) := by
  have hidx : lookupIndex m.num_states (g (WIDTH * m.ypos + m.xpos)) m.state < m.table.length :=
    lt_of_lt_of_le (lookupIndex_lt _ _ _) hlen
  have hget := List.get?_eq_get hidx
  set tr := m.table.get ⟨_, hidx⟩ with htr
  have htrmem : tr ∈ m.table := List.get_mem _ _ _
  have hsym : tr.symbol < 10 := htab tr htrmem
  have hpe : postEnergy m g = m.energy - 1 :=
    postEnergy_of_small m g (hg _) h1 h2
  have hg1 : ∀ i, writeGrid g (WIDTH * m.ypos + m.xpos) tr.symbol i < 10 := by
    intro i
    unfold writeGrid
    split
    · exact hsym
    · exact hg i
  rw [stepOnce_lookup_some m g tr hget]
  cases ha : tr.action
  case Left =>
    exact ⟨_, _, rfl, by simp [stepBase, hpe], by simp [stepBase], by simp [stepBase], hg1⟩
  case Right =>
    exact ⟨_, _, rfl, by simp [stepBase, hpe], by simp [stepBase], by simp [stepBase], hg1⟩
  case Up =>
    exact ⟨_, _, rfl, by simp [stepBase, hpe], by simp [stepBase], by simp [stepBase], hg1⟩
  case Down =>
    exact ⟨_, _, rfl, by simp [stepBase, hpe], by simp [stepBase], by simp [stepBase], hg1⟩
  case Wait =>
    exact ⟨_, _, rfl, by simp [stepBase, hpe], by simp [stepBase], by simp [stepBase], hg1⟩
  case Replicate =>
    have hno : ¬ (REPLICATIONCOST < (stepBase m g tr).energy) := by
      simp only [stepBase, hpe, REPLICATIONCOST] at *
      omega
    refine ⟨stepBase m g tr, writeGrid g (WIDTH * m.ypos + m.xpos) tr.symbol, ?_, ?_, ?_, ?_, hg1⟩
    · simp only [if_neg hno]
    · simp [stepBase, hpe]
    · simp [stepBase]
    · simp [stepBase]

lemma update_gain_free (k : Nat) :
    ∀ (m : TuringMachine) (g : Grid) (acc : List TuringMachine),
      (∀ tr ∈ m.table, tr.symbol < 10) →
      (∀ i, g i < 10) →
      256 ≤ m.table.length →
      m.itr_count < U32 →
      k ≤ m.energy →
      m.energy ≤ REPLICATIONCOST →
      ∃ m1 g1, update k m g acc = some (m1, g1, acc) ∧
        m1.energy = m.energy - k ∧
        m1.itr_count = (m.itr_count + k) % U32 ∧
        m1.table = m.table ∧
        (∀ i, g1 i < 10) := by
  induction k with
  | zero =>
    intro m g acc htab hg hlen hitr hk he
    exact ⟨m, g, rfl, by omega, by rw [Nat.add_zero, Nat.mod_eq_of_lt hitr], rfl, hg⟩
  | succ n ih =>
    intro m g acc htab hg hlen hitr hk he
    obtain ⟨m1, g1, hstep, hE, hI, hT, hG⟩ :=
      stepOnce_gain_free m g htab hg hlen (by omega) he
    have hitr1 : m1.itr_count < U32 := by
      rw [hI]
      exact Nat.mod_lt _ (by norm_num [U32])
    obtain ⟨m2, g2, hup, hE2, hI2, hT2, hG2⟩ :=
      ih m1 g1 (acc ++ []) (hT ▸ htab) hG (hT ▸ hlen) hitr1 (by omega)
        (by simp only [REPLICATIONCOST] at *; omega)
    refine ⟨m2, g2, ?_, by omega, ?_, by rw [hT2, hT], hG2⟩
    · show update (n + 1) m g acc = some (m2, g2, acc)
      unfold update
      rw [hstep]
      show update n m1 g1 (acc ++ []) = some (m2, g2, acc)
      simpa using hup
    · rw [hI2, hI, Nat.mod_add_mod]
      ring_nf

lemma frame_single (m : TuringMachine) (g : Grid) (fresh : Nat → TuringMachine)
    (m1 : TuringMachine) (g1 : Grid)
    (hup : update STEPS_PER_FRAME m g [] = some (m1, g1, [])) :
    frame [m] g fresh =
      some ((if 0 < m1.energy then [m1] else [fresh 0]), decayGrid g1) := by
  have hrun : runMachines [m] g [] = some ([m1], g1, []) := by
    unfold runMachines
    rw [hup]
    rfl
  unfold frame
  rw [hrun]
  by_cases hE : 0 < m1.energy
  · simp [hE, replenish, NUM_MACHINES]
  · simp [hE, replenish, NUM_MACHINES, List.range_succ]

/-- C2 (amended): an agent stepped for `k` sub-steps over cells whose
symbols stay below 10 (zero symbol-derived gain), with `k` no larger than
its starting energy and with its energy never above the replication
threshold, ends with energy exactly `start − k` having completed every
sub-step, and in a frame the agent is dropped from the live set exactly
when its end-of-frame energy is 0, never mid-frame. -/
theorem c2_colony_energy_accounting
    (m : TuringMachine) (g : Grid) (acc : List TuringMachine) (k : Nat)
    (fresh : Nat → TuringMachine)
    (htab : ∀ tr ∈ m.table, tr.symbol < 10)
    (hg : ∀ i, g i < 10)
    (hlen : 256 ≤ m.table.length)
    (hitr : m.itr_count < U32)
    (hk : k ≤ m.energy)
    (he : m.energy ≤ REPLICATIONCOST) :
    (∃ m1 g1, update k m g acc = some (m1, g1, acc) ∧
      m1.energy = m.energy - k ∧
      m1.itr_count = (m.itr_count + k) % U32) ∧
    (STEPS_PER_FRAME ≤ m.energy →
      ∃ m1 g1, frame [m] g fresh =
          some ((if 0 < m1.energy then [m1] else [fresh 0]), decayGrid g1) ∧
        m1.energy = m.energy - STEPS_PER_FRAME) := by
  constructor
  · obtain ⟨m1, g1, h1, h2, h3, _, _⟩ := update_gain_free k m g acc htab hg hlen hitr hk he
    exact ⟨m1, g1, h1, h2, h3⟩
  · intro h10
    obtain ⟨m1, g1, h1, h2, _, _, _⟩ :=
      update_gain_free STEPS_PER_FRAME m g [] htab hg hlen hitr h10 he
    exact ⟨m1, g1, frame_single m g fresh m1 g1 h1, h2⟩

set_option maxRecDepth 4096 in
/-- Witness for C2 at `machineWait` (energy 10) on the zero grid:
10 gain-free sub-steps leave exactly 0 energy. -/
theorem c2_colony_energy_accounting_witness :
    ∃ m1 g1, update 10 machineWait zeroGrid [] = some (m1, g1, []) ∧
      m1.energy = 0 ∧ m1.itr_count = 10 := by
  obtain ⟨m1, g1, h1, h2, h3⟩ :=
    (c2_colony_energy_accounting machineWait zeroGrid [] 10 (fun _ => machineWait)
      (by decide) (fun i => by norm_num [zeroGrid]) (by decide) (by decide)
      (by decide) (by decide)).1
  refine ⟨m1, g1, h1, ?_, ?_⟩
  · rw [h2]
    decide
  · rw [h3]
    decide

/-- Counterexample to C2 as stated: `machineRep600` (energy 600, all
transitions `Replicate`) stepped for one sub-step with zero
symbol-derived gain ends with energy 99, not 600 − 1 = 599, because the
replication branch also deducts `REPLICATIONCOST`. -/
theorem c2_counterexample_replication :
    ((update 1 machineRep600 zeroGrid []).map (fun p => p.1.energy)) = some 99 ∧
    machineRep600.energy = 600 ∧ (99 : Nat) ≠ 600 - 1 := by
  exact ⟨by decide, by decide, by decide⟩

/-- C5: stepping is deterministic and composes over chunking:
`update (a + b)` is `update a` followed by `update b` on its result, for
every machine, grid and staging accumulator. -/
theorem c5_step_chunking (a b : Nat) (m : TuringMachine) (g : Grid)
    (acc : List TuringMachine) :
    update (a + b) m g acc =
      (update a m g acc).bind (fun p => update b p.1 p.2.1 p.2.2) := by
  induction a generalizing m g acc with
  | zero =>
    rw [Nat.zero_add]
    rfl
  | succ n ih =>
    have h : n + 1 + b = (n + b) + 1 := by omega
    rw [h]
    simp only [update]
    cases hstep : stepOnce m g with
    | none => rfl
    | some p =>
      obtain ⟨m1, g1, sp⟩ := p
      exact ih m1 g1 (acc ++ sp)

lemma stepOnce_fields (m : TuringMachine) (g : Grid) (tr : Transition)
    (h : m.table.get? (lookupIndex m.num_states (g (WIDTH * m.ypos + m.xpos)) m.state) = some tr) :
    ∃ m1 g1 sp, stepOnce m g = some (m1, g1, sp) ∧
      m1.state = tr.state ∧
      m1.table = m.table ∧
      m1.itr_count = (m.itr_count + 1) % U32 ∧
      (m1.xpos, m1.ypos) = moveOf tr.action m.xpos m.ypos ∧
      g1 = writeGrid g (WIDTH * m.ypos + m.xpos) tr.symbol ∧
      (tr.action ≠ Action.Replicate → m1.energy = postEnergy m g ∧ sp = []) := by
  rw [stepOnce_lookup_some m g tr h]
  cases ha : tr.action
  case Left =>
    exact ⟨_, _, _, rfl, by simp [stepBase], by simp [stepBase], by simp [stepBase],
      by simp [stepBase, moveOf], rfl, fun _ => ⟨by simp [stepBase], rfl⟩⟩
  case Right =>
    exact ⟨_, _, _, rfl, by simp [stepBase], by simp [stepBase], by simp [stepBase],
      by simp [stepBase, moveOf], rfl, fun _ => ⟨by simp [stepBase], rfl⟩⟩
  case Up =>
    exact ⟨_, _, _, rfl, by simp [stepBase], by simp [stepBase], by simp [stepBase],
      by simp [stepBase, moveOf], rfl, fun _ => ⟨by simp [stepBase], rfl⟩⟩
  case Down =>
    exact ⟨_, _, _, rfl, by simp [stepBase], by simp [stepBase], by simp [stepBase],
      by simp [stepBase, moveOf], rfl, fun _ => ⟨by simp [stepBase], rfl⟩⟩
  case Wait =>
    exact ⟨_, _, _, rfl, by simp [stepBase], by simp [stepBase], by simp [stepBase],
      by simp [stepBase, moveOf], rfl, fun _ => ⟨by simp [stepBase], rfl⟩⟩
  case Replicate =>
    by_cases hc : REPLICATIONCOST < (stepBase m g tr).energy
    · refine ⟨_, _, _, if_pos hc, by simp [stepBase], by simp [stepBase], by simp [stepBase],
        by simp [stepBase, moveOf], rfl, fun hn => absurd rfl hn⟩
    · refine ⟨_, _, _, if_neg hc, by simp [stepBase], by simp [stepBase], by simp [stepBase],
        by simp [stepBase, moveOf], rfl, fun hn => absurd rfl hn⟩

/-- C4: movement is toroidal with the inverted x-mapping: Right at x=0
wraps to width−1 and otherwise decrements x; Left at x=width−1 wraps to 0
and otherwise increments x; Up at y=0 wraps to height−1 and otherwise
decrements y; Down at y=height−1 wraps to 0 and otherwise increments y;
and no action leaves the position out of bounds. -/
theorem c4_toroidal_movement (m : TuringMachine) (g : Grid) (tr : Transition)
    (hx : m.xpos < WIDTH) (hy : m.ypos < HEIGHT)
    (h : m.table.get? (lookupIndex m.num_states (g (WIDTH * m.ypos + m.xpos)) m.state) = some tr) :
    ∃ m1 g1 sp, stepOnce m g = some (m1, g1, sp) ∧
      (tr.action = Action.Right →
        m1.xpos = (if m.xpos = 0 then WIDTH - 1 else m.xpos - 1) ∧ m1.ypos = m.ypos) ∧
      (tr.action = Action.Left →
        m1.xpos = (if m.xpos = WIDTH - 1 then 0 else m.xpos + 1) ∧ m1.ypos = m.ypos) ∧
      (tr.action = Action.Up →
        m1.ypos = (if m.ypos = 0 then HEIGHT - 1 else m.ypos - 1) ∧ m1.xpos = m.xpos) ∧
      (tr.action = Action.Down →
        m1.ypos = (if m.ypos = HEIGHT - 1 then 0 else m.ypos + 1) ∧ m1.xpos = m.xpos) ∧
      m1.xpos < WIDTH ∧ m1.ypos < HEIGHT := by
  obtain ⟨m1, g1, sp, hs, _, _, _, hpos, _, _⟩ := stepOnce_fields m g tr h
  have hx1 : m1.xpos = (moveOf tr.action m.xpos m.ypos).1 := congrArg Prod.fst hpos
  have hy1 : m1.ypos = (moveOf tr.action m.xpos m.ypos).2 := congrArg Prod.snd hpos
  simp only [WIDTH, HEIGHT] at hx hy ⊢
  refine ⟨m1, g1, sp, hs, ?_, ?_, ?_, ?_, ?_, ?_⟩
  · intro ha
    rw [ha] at hx1 hy1
    simp only [moveOf, WIDTH, HEIGHT] at hx1 hy1
    exact ⟨by rw [hx1], by rw [hy1]⟩
  · intro ha
    rw [ha] at hx1 hy1
    simp only [moveOf, WIDTH, HEIGHT] at hx1 hy1
    refine ⟨by rw [hx1]; split_ifs <;> omega, by rw [hy1]⟩
  · intro ha
    rw [ha] at hx1 hy1
    simp only [moveOf, WIDTH, HEIGHT] at hx1 hy1
    exact ⟨by rw [hy1], by rw [hx1]⟩
  · intro ha
    rw [ha] at hx1 hy1
    simp only [moveOf, WIDTH, HEIGHT] at hx1 hy1
    refine ⟨by rw [hy1]; split_ifs <;> omega, by rw [hx1]⟩
  · cases ha : tr.action <;>
      (rw [ha] at hx1; simp only [moveOf, WIDTH, HEIGHT] at hx1; rw [hx1]) <;>
      first
        | (split_ifs <;> omega)
        | omega
  · cases ha : tr.action <;>
      (rw [ha] at hy1; simp only [moveOf, WIDTH, HEIGHT] at hy1; rw [hy1]) <;>
      first
        | (split_ifs <;> omega)
        | omega

/-- Witness for C4: `machineRight` stands at x = 0, y = 5; its transition
action is Right, so the step wraps it to x = width − 1, in bounds. -/
theorem c4_toroidal_movement_witness :
    ∃ m1 g1 sp, stepOnce machineRight zeroGrid = some (m1, g1, sp) ∧
      m1.xpos = WIDTH - 1 ∧ m1.xpos < WIDTH ∧ m1.ypos < HEIGHT := by
  obtain ⟨m1, g1, sp, hs, hR, _, _, _, hbx, hby⟩ :=
    c4_toroidal_movement machineRight zeroGrid ⟨0, 0, Action.Right⟩
      (by decide) (by decide) (by decide)
  obtain ⟨h1, h2⟩ := hR rfl
  exact ⟨m1, g1, sp, hs, by rw [h1]; decide, hbx, hby⟩

/-- C6: within one sub-step, the symbol written at the agent's pre-step
position is exactly the looked-up transition's output symbol (no other
cell changes), the new state is the transition's next state, the movement
is applied to the pre-transition position, and the lookup itself uses the
pre-write symbol and pre-update state (its index in hypothesis `h`). -/
theorem c6_step_order (m : TuringMachine) (g : Grid) (tr : Transition)
    (h : m.table.get? (lookupIndex m.num_states (g (WIDTH * m.ypos + m.xpos)) m.state) = some tr) :
    ∃ m1 g1 sp, stepOnce m g = some (m1, g1, sp) ∧
      m1.state = tr.state ∧
      g1 (WIDTH * m.ypos + m.xpos) = tr.symbol ∧
      (∀ j, j ≠ WIDTH * m.ypos + m.xpos → g1 j = g j) ∧
      (m1.xpos, m1.ypos) = moveOf tr.action m.xpos m.ypos ∧
      m1.itr_count = (m.itr_count + 1) % U32 := by
  obtain ⟨m1, g1, sp, hs, hst, _, hitr, hpos, hgw, _⟩ := stepOnce_fields m g tr h
  refine ⟨m1, g1, sp, hs, hst, ?_, ?_, hpos, hitr⟩
  · rw [hgw]
    simp [writeGrid]
  · intro j hj
    rw [hgw]
    simp [writeGrid, hj]

/-- Witness for C6: `machineDown` at (2, 3) with transition
(state 3, symbol 7, Down): the step writes 7 at the old cell, enters
state 3 and moves to (2, 4). -/
theorem c6_step_order_witness :
    ∃ m1 g1 sp, stepOnce machineDown zeroGrid = some (m1, g1, sp) ∧
      m1.state = 3 ∧ g1 (WIDTH * 3 + 2) = 7 ∧ (m1.xpos, m1.ypos) = (2, 4) := by
  obtain ⟨m1, g1, sp, hs, hst, hw, _, hpos, _⟩ :=
    c6_step_order machineDown zeroGrid ⟨3, 7, Action.Down⟩ (by decide)
  refine ⟨m1, g1, sp, hs, by rw [hst], hw, by rw [hpos]; decide⟩

/-- C9: the per-step energy decrement is an unguarded `u32` subtraction:
an agent that begins a sub-step with energy 0 (reachable mid-frame, by
C2's accounting, since pruning happens only at frame end) has its energy
wrap around to 2^32 − 1 instead of being marked dead. -/
theorem c9_energy_underflow (m : TuringMachine) (g : Grid) (tr : Transition)
    (h : m.table.get? (lookupIndex m.num_states (g (WIDTH * m.ypos + m.xpos)) m.state) = some tr)
    (h0 : m.energy = 0)
    (hs : g (WIDTH * m.ypos + m.xpos) < 10)
    (ha : tr.action ≠ Action.Replicate) :
    ∃ m1 g1 sp, stepOnce m g = some (m1, g1, sp) ∧
      m1.energy = U32 - 1 ∧ 0 < m1.energy := by
  obtain ⟨m1, g1, sp, hstep, _, _, _, _, _, hrest⟩ := stepOnce_fields m g tr h
  obtain ⟨hE, _⟩ := hrest ha
  have hpe : postEnergy m g = U32 - 1 := by
    unfold postEnergy
    rw [Nat.div_eq_of_lt hs, h0]
    norm_num [U32]
  refine ⟨m1, g1, sp, hstep, by rw [hE, hpe], ?_⟩
  rw [hE, hpe]
  norm_num [U32]

/-- Witness for C9: `machineZero` (energy 0, `Wait` transitions) on the
zero grid: one sub-step leaves it with energy 2^32 − 1, still counted as
alive. -/
theorem c9_energy_underflow_witness :
    ∃ m1 g1 sp, stepOnce machineZero zeroGrid = some (m1, g1, sp) ∧
      m1.energy = U32 - 1 ∧ 0 < m1.energy :=
  c9_energy_underflow machineZero zeroGrid ⟨0, 0, Action.Wait⟩
    (by decide) rfl (by decide) (by decide)

/-- C10: a clone produced by replication differs from its parent (as the
parent stands at the moment of replication, after this step's state,
symbol and counter updates and the threshold deduction) in exactly the
energy (reset to `STARTENERGY`) and the position (offset by one cell in
both axes, toroidally); table, state, step counter and table dimensions
are copied unchanged, and the parent did not move. -/
theorem c10_clone_fields (m : TuringMachine) (g : Grid)
    (m1 : TuringMachine) (g1 : Grid) (s : TuringMachine)
    (h : stepOnce m g = some (m1, g1, [s])) :
    s.energy = STARTENERGY ∧
    s.xpos = (m1.xpos + 1) % WIDTH ∧ s.ypos = (m1.ypos + 1) % HEIGHT ∧
    s.table = m1.table ∧ s.state = m1.state ∧ s.itr_count = m1.itr_count ∧
    s.num_states = m1.num_states ∧ s.num_symbols = m1.num_symbols ∧
    m1.xpos = m.xpos ∧ m1.ypos = m.ypos := by
  cases hget : m.table.get? (lookupIndex m.num_states (g (WIDTH * m.ypos + m.xpos)) m.state) with
  | none =>
    unfold stepOnce at h
    rw [hget] at h
    cases h
  | some tr =>
    cases ta : tr.action
    case Left =>
      simp [stepOnce_lookup_some m g tr hget, ta] at h
    case Right =>
      simp [stepOnce_lookup_some m g tr hget, ta] at h
    case Up =>
      simp [stepOnce_lookup_some m g tr hget, ta] at h
    case Down =>
      simp [stepOnce_lookup_some m g tr hget, ta] at h
    case Wait =>
      simp [stepOnce_lookup_some m g tr hget, ta] at h
    case Replicate =>
      rw [stepOnce_lookup_some m g tr hget, ta] at h
      simp only at h
      split at h
      · simp only [Option.some.injEq, Prod.mk.injEq, List.cons.injEq, and_true] at h
        obtain ⟨hm1, hg1, hsx⟩ := h
        subst hm1
        subst hsx
        exact ⟨rfl, rfl, rfl, rfl, rfl, rfl, rfl, rfl, rfl, rfl⟩
      · simp at h

/-- The parent machine after `machineRep` executes one replicating
sub-step on the zero grid. -/
def repParent : TuringMachine := { machineRep with energy := 499, itr_count := 1 }

/-- The clone spawned by that sub-step. -/
def repClone : TuringMachine :=
  { repParent with energy := STARTENERGY, xpos := 1, ypos := 1 }

/-- Witness for C10: `machineRep` (energy 1000, `Replicate` transitions)
spawns exactly `repClone` from `repParent`. -/
theorem c10_clone_fields_witness :
    repClone.energy = STARTENERGY ∧
    repClone.xpos = (repParent.xpos + 1) % WIDTH ∧
    repClone.ypos = (repParent.ypos + 1) % HEIGHT ∧
    repClone.table = repParent.table ∧ repClone.state = repParent.state ∧
    repClone.itr_count = repParent.itr_count ∧
    repClone.num_states = repParent.num_states ∧
    repClone.num_symbols = repParent.num_symbols ∧
    repParent.xpos = machineRep.xpos ∧ repParent.ypos = machineRep.ypos :=
  c10_clone_fields machineRep zeroGrid repParent (writeGrid zeroGrid 0 0) repClone (by rfl)

lemma update_acc_append (n : Nat) :
    ∀ (m : TuringMachine) (g : Grid) (acc : List TuringMachine),
      update n m g acc =
        (update n m g []).map (fun p => (p.1, p.2.1, acc ++ p.2.2)) := by
  induction n with
  | zero =>
    intro m g acc
    simp [update]
  | succ n ih =>
    intro m g acc
    cases hstep : stepOnce m g with
    | none => simp [update, hstep]
    | some p =>
      obtain ⟨m1, g1, sp⟩ := p
      simp only [update, hstep, List.nil_append]
      rw [ih m1 g1 (acc ++ sp), ih m1 g1 sp]
      cases hup : update n m1 g1 [] with
      | none => rfl
      | some q => simp

lemma runMachines_acc_append (ms : List TuringMachine) :
    ∀ (g : Grid) (acc : List TuringMachine),
      runMachines ms g acc =
        (runMachines ms g []).map (fun p => (p.1, p.2.1, acc ++ p.2.2)) := by
  induction ms with
  | nil =>
    intro g acc
    simp [runMachines]
  | cons m ms ih =>
    intro g acc
    simp only [runMachines]
    rw [update_acc_append STEPS_PER_FRAME m g acc]
    cases hup : update STEPS_PER_FRAME m g [] with
    | none => simp
    | some p =>
      obtain ⟨m1, g1, sp⟩ := p
      simp only [Option.map_some', List.nil_append]
      rw [ih g1 (acc ++ sp), ih g1 sp]
      cases hrun : runMachines ms g1 [] with
      | none => rfl
      | some q => simp

lemma runMachines_eq_stepSnapshot (ms : List TuringMachine) :
    ∀ g : Grid, runMachines ms g [] = stepSnapshot ms g := by
  induction ms with
  | nil => intro g; rfl
  | cons m ms ih =>
    intro g
    simp only [runMachines, stepSnapshot]
    cases hup : update STEPS_PER_FRAME m g [] with
    | none => rfl
    | some p =>
      obtain ⟨m1, g1, sp⟩ := p
      simp only [List.nil_append]
      rw [runMachines_acc_append ms g1 sp, ih g1]
      cases hsnap : stepSnapshot ms g1 with
      | none => rfl
      | some q => simp

lemma stepOnce_spawn_energy (m : TuringMachine) (g : Grid)
    (m1 : TuringMachine) (g1 : Grid) (sp : List TuringMachine)
    (h : stepOnce m g = some (m1, g1, sp)) :
    ∀ x ∈ sp, x.energy = STARTENERGY := by
  cases hget : m.table.get? (lookupIndex m.num_states (g (WIDTH * m.ypos + m.xpos)) m.state) with
  | none =>
    unfold stepOnce at h
    rw [hget] at h
    cases h
  | some tr =>
    cases ta : tr.action
    case Left =>
      simp [stepOnce_lookup_some m g tr hget, ta] at h
      simp [h]
    case Right =>
      simp [stepOnce_lookup_some m g tr hget, ta] at h
      simp [h]
    case Up =>
      simp [stepOnce_lookup_some m g tr hget, ta] at h
      simp [h]
    case Down =>
      simp [stepOnce_lookup_some m g tr hget, ta] at h
      simp [h]
    case Wait =>
      simp [stepOnce_lookup_some m g tr hget, ta] at h
      simp [h]
    case Replicate =>
      rw [stepOnce_lookup_some m g tr hget, ta] at h
      simp only at h
      split at h
      · simp only [Option.some.injEq, Prod.mk.injEq, List.cons.injEq, and_true] at h
        obtain ⟨hm1, hg1, hsx⟩ := h
        subst hsx
        intro x hx
        simp only [List.mem_singleton] at hx
        subst hx
        rfl
      · simp only [Option.some.injEq, Prod.mk.injEq] at h
        obtain ⟨hm1, hg1, hsx⟩ := h
        subst hsx
        intro x hx
        cases hx

lemma update_spawn_energy (n : Nat) :
    ∀ (m : TuringMachine) (g : Grid) (acc : List TuringMachine)
      (m1 : TuringMachine) (g1 : Grid) (acc1 : List TuringMachine),
      update n m g acc = some (m1, g1, acc1) →
      ∀ x ∈ acc1, x ∈ acc ∨ x.energy = STARTENERGY := by
  induction n with
  | zero =>
    intro m g acc m1 g1 acc1 h x hx
    simp only [update, Option.some.injEq, Prod.mk.injEq] at h
    obtain ⟨-, -, hacc⟩ := h
    subst hacc
    exact Or.inl hx
  | succ n ih =>
    intro m g acc m1 g1 acc1 h x hx
    unfold update at h
    cases hstep : stepOnce m g with
    | none =>
      rw [hstep] at h
      cases h
    | some p =>
      obtain ⟨m2, g2, sp⟩ := p
      rw [hstep] at h
      have := ih m2 g2 (acc ++ sp) m1 g1 acc1 h x hx
      rcases this with hmem | hE
      · rcases List.mem_append.mp hmem with hacc | hsp
        · exact Or.inl hacc
        · exact Or.inr (stepOnce_spawn_energy m g m2 g2 sp hstep x hsp)
      · exact Or.inr hE

lemma stepSnapshot_spawn_energy (ms : List TuringMachine) :
    ∀ (g : Grid) (stepped : List TuringMachine) (g1 : Grid)
      (spawned : List TuringMachine),
      stepSnapshot ms g = some (stepped, g1, spawned) →
      ∀ x ∈ spawned, x.energy = STARTENERGY := by
  induction ms with
  | nil =>
    intro g stepped g1 spawned h x hx
    simp only [stepSnapshot, Option.some.injEq, Prod.mk.injEq] at h
    obtain ⟨-, -, hsp⟩ := h
    subst hsp
    cases hx
  | cons m ms ih =>
    intro g stepped g1 spawned h x hx
    unfold stepSnapshot at h
    cases hup : update STEPS_PER_FRAME m g [] with
    | none =>
      rw [hup] at h
      cases h
    | some p =>
      obtain ⟨m1, g2, sp⟩ := p
      simp only [hup] at h
      cases hsnap : stepSnapshot ms g2 with
      | none =>
        simp only [hsnap] at h
        cases h
      | some q =>
        obtain ⟨ms1, g3, sps⟩ := q
        simp only [hsnap, Option.some.injEq, Prod.mk.injEq] at h
        obtain ⟨-, -, hsp⟩ := h
        subst hsp
        rcases List.mem_append.mp hx with h1 | h2
        · rcases update_spawn_energy STEPS_PER_FRAME m g [] m1 g2 sp hup x h1 with hin | hE
          · cases hin
          · exact hE
        · exact ih g2 ms1 g3 sps hsnap x h2

lemma replenish_length (ms : List TuringMachine) (fresh : Nat → TuringMachine) :
    NUM_MACHINES ≤ (replenish ms fresh).length := by
  unfold replenish
  split
  · simp only [List.length_append, List.length_map, List.length_range]
    omega
  · omega

/-- C7: in a colony tick, the live set is stepped as a snapshot: the
frame equals stepping the pre-existing machines independently (spawns
staged separately, merged only after the whole pass), every staged
machine still carries its birth energy untouched at merge time, the only
removal is the single end-of-tick filter, and the population is
replenished to the configured floor afterwards. -/
theorem c7_birth_tick_isolation (ms : List TuringMachine) (g : Grid)
    (fresh : Nat → TuringMachine) :
    frame ms g fresh =
      (stepSnapshot ms g).map (fun p =>
        (replenish ((p.1 ++ p.2.2).filter (fun x => decide (0 < x.energy))) fresh,
          decayGrid p.2.1)) ∧
    (∀ stepped g1 spawned, stepSnapshot ms g = some (stepped, g1, spawned) →
      ∀ x ∈ spawned, x.energy = STARTENERGY) ∧
    (∀ out g2, frame ms g fresh = some (out, g2) → NUM_MACHINES ≤ out.length) := by
  refine ⟨?_, fun stepped g1 spawned h =>
    stepSnapshot_spawn_energy ms g stepped g1 spawned h, ?_⟩
  · unfold frame
    rw [runMachines_eq_stepSnapshot ms g]
    cases hsnap : stepSnapshot ms g with
    | none => rfl
    | some p =>
      obtain ⟨stepped, g1, spawned⟩ := p
      simp
  · intro out g2 hf
    unfold frame at hf
    cases hrun : runMachines ms g [] with
    | none =>
      rw [hrun] at hf
      cases hf
    | some p =>
      obtain ⟨stepped, g1, spawned⟩ := p
      simp only [hrun, Option.some.injEq, Prod.mk.injEq] at hf
      obtain ⟨hout, -⟩ := hf
      exact hout ▸ replenish_length _ fresh

set_option maxRecDepth 8192 in
/-- Witness for C7: a frame over the single machine `machineWait` (which
dies) still produces a live set at the population floor. -/
theorem c7_birth_tick_isolation_witness :
    ∃ p, frame [machineWait] zeroGrid (fun _ => machineRep) = some p ∧
      NUM_MACHINES ≤ p.1.length := by
  obtain ⟨-, -, hlen⟩ :=
    c7_birth_tick_isolation [machineWait] zeroGrid (fun _ => machineRep)
  have hsome : (frame [machineWait] zeroGrid (fun _ => machineRep)).isSome = true := by
    rfl
  rw [Option.isSome_iff_exists] at hsome
  obtain ⟨p, hp⟩ := hsome
  exact ⟨p, hp, hlen p.1 p.2 (by rw [hp])⟩

lemma get_cons3 {α : Type} (a b c : α) (l : List α) (k : Nat) :
    (a :: b :: c :: l).get? (k + 3) = l.get? k := rfl

lemma drop_cons3 {α : Type} (a b c : α) (l : List α) (k : Nat) :
    (a :: b :: c :: l).drop (k + 3) = l.drop k := rfl

lemma buildTable_some_spec (n : Nat) :
    ∀ (ts : List (List Char)) (tbl : List Transition) (rest : List (List Char)),
      buildTable n ts = some (tbl, rest) →
      tbl.length = n ∧ rest = ts.drop (3 * n) ∧ 3 * n ≤ ts.length ∧
      ∀ i, i < n →
        ∃ cs cy ca sv yv av act,
          ts.get? (3 * i) = some cs ∧ ts.get? (3 * i + 1) = some cy ∧
          ts.get? (3 * i + 2) = some ca ∧
          parseU8 cs = some sv ∧ parseU8 cy = some yv ∧ parseU8 ca = some av ∧
          decodeAction av = some act ∧
          tbl.get? i = some ⟨sv, yv, act⟩ := by
  induction n with
  | zero =>
    intro ts tbl rest h
    simp only [buildTable, Option.some.injEq, Prod.mk.injEq] at h
    obtain ⟨htbl, hrest⟩ := h
    subst htbl
    subst hrest
    exact ⟨rfl, rfl, by omega, fun i hi => absurd hi (by omega)⟩
  | succ n ih =>
    intro ts tbl rest h
    unfold buildTable at h
    cases ts with
    | nil => simp [nextU8] at h
    | cons c0 ts0 =>
      cases hp0 : parseU8 c0 with
      | none => simp [nextU8, hp0] at h
      | some s =>
        simp only [nextU8, hp0] at h
        cases ts0 with
        | nil => simp [nextU8] at h
        | cons c1 ts1 =>
          cases hp1 : parseU8 c1 with
          | none => simp [nextU8, hp1] at h
          | some y =>
            simp only [nextU8, hp1] at h
            cases ts1 with
            | nil => simp [nextU8] at h
            | cons c2 ts2 =>
              cases hp2 : parseU8 c2 with
              | none => simp [nextU8, hp2] at h
              | some a =>
                simp only [nextU8, hp2] at h
                cases hd : decodeAction a with
                | none => simp [hd] at h
                | some act =>
                  simp only [hd] at h
                  cases hb : buildTable n ts2 with
                  | none =>
                    simp only [hb] at h
                    cases h
                  | some q =>
                    obtain ⟨tbl1, rest1⟩ := q
                    simp only [hb, Option.some.injEq, Prod.mk.injEq] at h
                    obtain ⟨htbl, hrest⟩ := h
                    subst htbl
                    subst hrest
                    obtain ⟨hlen, hdrop, hle, hent⟩ := ih ts2 tbl1 rest1 hb
                    have e3 : 3 * (n + 1) = 3 * n + 3 := by ring
                    refine ⟨by simp [hlen], ?_, ?_, ?_⟩
                    · rw [hdrop, e3, drop_cons3]
                    · simp only [List.length_cons]
                      omega
                    · intro i hi
                      cases i with
                      | zero =>
                        exact ⟨c0, c1, c2, s, y, a, act, rfl, rfl, rfl,
                          hp0, hp1, hp2, hd, rfl⟩
                      | succ j =>
                        obtain ⟨cs, cy, ca, sv, yv, av, act1, h1, h2, h3, h4, h5, h6, h7, h8⟩ :=
                          hent j (by omega)
                        have ej : 3 * (j + 1) = 3 * j + 3 := by ring
                        have ej1 : 3 * (j + 1) + 1 = 3 * j + 1 + 3 := by ring
                        have ej2 : 3 * (j + 1) + 2 = 3 * j + 2 + 3 := by ring
                        refine ⟨cs, cy, ca, sv, yv, av, act1, ?_, ?_, ?_, h4, h5, h6, h7, h8⟩
                        · rw [ej, get_cons3]
                          exact h1
                        · rw [ej1, get_cons3]
                          exact h2
                        · rw [ej2, get_cons3]
                          exact h3

/-- C8 (amended): decoding reads `num_states` and `num_symbols` from the
first two values, then consumes one (state, symbol, action-code) triple
per entry in row-major order; it fails whenever the sequence holds fewer
than 2 + 3·num_states·num_symbols values, and a successful decode forces
every consumed value to be numeric (≤ 255) with every consumed action
code in {0,1,2,3} — values after the consumed prefix are never examined
(the source iterator is lazy). -/
theorem c8_decode_characterization
    (t0 t1 : List Char) (rest : List (List Char)) (ns k : Nat)
    (h0 : parseU8 t0 = some ns) (h1 : parseU8 t1 = some k) :
    (rest.length < 3 * (ns * k) → fromTokens (t0 :: t1 :: rest) = none) ∧
    (∀ m, fromTokens (t0 :: t1 :: rest) = some m →
      m.num_states = ns ∧ m.num_symbols = k ∧ m.table.length = ns * k ∧
      ∀ i, i < ns * k →
        ∃ cs cy ca sv yv av act,
          rest.get? (3 * i) = some cs ∧ rest.get? (3 * i + 1) = some cy ∧
          rest.get? (3 * i + 2) = some ca ∧
          parseU8 cs = some sv ∧ parseU8 cy = some yv ∧ parseU8 ca = some av ∧
          decodeAction av = some act ∧
          m.table.get? i = some ⟨sv, yv, act⟩) := by
  constructor
  · intro hshort
    unfold fromTokens
    simp only [nextU8, h0, h1]
    split
    · cases hb : buildTable (ns * k) rest with
      | none => rfl
      | some p =>
        obtain ⟨tbl, r⟩ := p
        obtain ⟨-, -, hle, -⟩ := buildTable_some_spec (ns * k) rest tbl r hb
        exact absurd hle (by omega)
    · rfl
  · intro m hm
    unfold fromTokens at hm
    simp only [nextU8, h0, h1] at hm
    split at hm
    · cases hb : buildTable (ns * k) rest with
      | none =>
        simp only [hb] at hm
        cases hm
      | some p =>
        obtain ⟨tbl, r⟩ := p
        simp only [hb, Option.some.injEq] at hm
        subst hm
        obtain ⟨hlen, -, -, hent⟩ := buildTable_some_spec (ns * k) rest tbl r hb
        exact ⟨rfl, rfl, hlen, hent⟩
    · cases hm

/-- Counterexample to C8 as stated: the sequence
"1,2,0,1,0,0,1,1,x" contains the non-numeric value "x", yet decoding
succeeds, because the trailing value lies beyond the consumed
2 + 3·1·2 = 8-value prefix of the lazy iterator. -/
theorem c8_counterexample_trailing_junk :
    (from_string junkEncoding).isSome = true ∧
    ((splitCommas junkEncoding.data).get? 8).map parseU8 = some none := by
  exact ⟨by decide, by decide⟩

/-- Witness for C8: with num_states = 1, num_symbols = 2 parsed from the
first two values, a 5-value remainder is shorter than 3·1·2 = 6, so the
decode fails. -/
theorem c8_decode_characterization_witness :
    fromTokens ["1".data, "2".data, "0".data, "1".data, "0".data, "0".data, "1".data] = none :=
  (c8_decode_characterization ("1".data) ("2".data)
    ["0".data, "1".data, "0".data, "0".data, "1".data] 1 2
    (by decide) (by decide)).1 (by decide)

set_option maxRecDepth 8192 in
/-- C1 (code-bug evidence): the lookup index is computed in `u8`, so for
`main`'s own 50-state 64-symbol machine reading symbol 6 in state 0 the
index wraps to (50·6 + 0) mod 256 = 44 instead of the exact 300: the step
uses entry 44 (state 7 here), not entry 300 (state 1 here). -/
theorem c1_lookup_index_truncated :
    lookupIndex 50 6 0 = 44 ∧
    50 * 6 + 0 = 300 ∧
    ((stepOnce machine50x64 gridSix).map (fun p => p.1.state)) = some 7 ∧
    (machine50x64.table.get? 300).map (fun t => t.state) = some 1 := by
  exact ⟨by decide, by decide, by decide, by decide⟩

/-- C3 counterexample: decoding the spec's scenario string does not
succeed, so no table with num_states = 3, num_symbols = 4 and 12 entries
is produced and no step can be taken from it. -/
theorem c3_counterexample_decode_fails :
    (from_string scenarioEncoding).isSome = false := by
  decide

/-- C3 (amended): the scenario string splits into only 27 values; the
first two decode to num_states = 3 and num_symbols = 4, but
2 + 3·(3·4) = 38 values would be needed, so `from_string` hits iterator
exhaustion (modelled as `none`) and produces nothing. -/
theorem c3_scenario_decode :
    from_string scenarioEncoding = none ∧
    (splitCommas scenarioEncoding.data).length = 27 ∧
    ((splitCommas scenarioEncoding.data).take 2).map parseU8 = [some 3, some 4] ∧
    27 < 2 + 3 * (3 * 4) := by
  exact ⟨by decide, by decide, by decide, by decide⟩

end RustArt
